/-
  Verification of the NeuraSentinel phone-IMU preprocessing pipeline
  (backend/prepare_phone_dataset.py, backend/train_cnn.py,
  backend/augment_from_new_phone_dataset.py).

  The Python code is shallowly embedded over exact rationals: every numpy
  helper used by the pipeline (arange, linspace, interp, convolve, mean, var)
  is modelled with its documented semantics, and each pipeline function is
  translated statement by statement.  Machine floats are modelled by ℚ, so
  all arithmetic is exact.
-/
import Mathlib

set_option maxRecDepth 16000

namespace NeuraSentinel

/-- A 3-channel sample row (numpy row of shape (3,)). -/
abbrev Vec3 := Fin 3 → ℚ

/-- A 6-channel sample row (numpy row of shape (6,)). -/
abbrev Vec6 := Fin 6 → ℚ

/-- The all-zero 6-channel row. -/
def zeroRow : Vec6 := fun _ => 0

/-- Python `int(q)`: truncation toward zero. -/
def pyInt (q : ℚ) : ℤ := if 0 ≤ q then ⌊q⌋ else ⌈q⌉

/-- Python sequence indexing `xs[i]` with negative-index wrap-around
(out-of-range access, which raises in Python, is mapped to 0; every use in the
embedded code is shown to stay in range). -/
def pyGet (xs : List ℚ) (i : ℤ) : ℚ :=
  if 0 ≤ i then xs.getD i.toNat 0 else xs.getD (xs.length - (-i).toNat) 0

/-- `np.arange(start, stop, step)`: the points `start + i*step` for
`0 ≤ i < ⌈(stop-start)/step⌉` (empty when that count is nonpositive). -/
def npArange (start stop step : ℚ) : List ℚ :=
  (List.range (⌈(stop - start) / step⌉).toNat).map (fun i : ℕ => start + (i : ℚ) * step)

/-- `np.linspace(a, b, num)`: `num` evenly spaced points from `a` to `b`
inclusive (`[a]` when `num = 1`, `[]` when `num = 0`). -/
def npLinspace (a b : ℚ) (num : ℕ) : List ℚ :=
  (List.range num).map (fun i : ℕ =>
    if num ≤ 1 then a else a + (i : ℚ) * ((b - a) / ((num : ℚ) - 1)))

/-- Interval scan for `np.interp`: `x` is known to satisfy `x0 < x`; walk the
remaining nodes, interpolating linearly on the bracketing interval, clamping
to the last value beyond the right end. -/
def npInterpGo (x : ℚ) : ℚ → ℚ → List ℚ → List ℚ → ℚ
  | x0, y0, x1 :: xs, y1 :: ys =>
    if x ≤ x1 then y0 + (y1 - y0) * (x - x0) / (x1 - x0)
    else npInterpGo x x1 y1 xs ys
  | _, y0, _, _ => y0

/-- `np.interp(x, xp, fp)` for increasing `xp`: linear interpolation with
constant extrapolation (clamping) outside `[xp[0], xp[-1]]`.  Empty node
lists (which raise in numpy) are mapped to 0; every embedded call site is
shown to pass nonempty nodes. -/
def npInterp (x : ℚ) (xp fp : List ℚ) : ℚ :=
  match xp, fp with
  | x0 :: xs, y0 :: ys => if x ≤ x0 then y0 else npInterpGo x x0 y0 xs ys
  | _, _ => 0

/-- `np.convolve(a, v)` (mode "full"): entry `j` is `Σ_l v[l]·a[j-l]`. -/
def npConvolveFull (a v : List ℚ) : List ℚ :=
  (List.range (a.length + v.length - 1)).map (fun j =>
    ((List.range v.length).map (fun l =>
      if l ≤ j then v.getD l 0 * a.getD (j - l) 0 else 0)).sum)

/-- `np.convolve(a, v, mode="same")`: the centered `max(len a, len v)` window
of the full convolution, starting at offset `(min(len a, len v) - 1) / 2`. -/
def npConvolveSame (a v : List ℚ) : List ℚ :=
  ((npConvolveFull a v).drop ((min a.length v.length - 1) / 2)).take (max a.length v.length)

/-- `np.mean`. -/
def npMean (xs : List ℚ) : ℚ := xs.sum / xs.length

/-- `np.var` (population variance, ddof = 0), of which `np.std` is the
square root. -/
def npVar (xs : List ℚ) : ℚ := ((xs.map (fun x => (x - npMean xs) ^ 2)).sum) / xs.length

/-- One raw sensor sample: a timestamp (seconds) and a 3-axis reading.
Models one row of the `(t, xyz)` pair in `prepare_phone_dataset.py`. -/
structure Sample3 where
  t : ℚ
  v : Vec3
  deriving DecidableEq

/-- `np.argsort` + reindex (lines 94-96 of `prepare_phone_dataset.py`):
stable sort of the trace by timestamp. -/
def sortByTime (tr : List Sample3) : List Sample3 :=
  tr.insertionSort (fun a b => a.t ≤ b.t)

/-- The duplicate mask of lines 98-101: keep row 0 and every row whose
timestamp strictly exceeds that of its immediate predecessor in the sorted
trace. -/
def dedupByMask (l : List Sample3) : List Sample3 :=
  match l with
  | [] => []
  | a :: rest =>
      a :: (rest.zip l).filterMap (fun p => if p.2.t < p.1.t then some p.1 else none)

/-- The cleaning step of `resample_to_grid` (lines 93-101): sort by time,
then drop rows that do not strictly increase the timestamp. -/
def cleanTrace (tr : List Sample3) : List Sample3 :=
  dedupByMask (sortByTime tr)

/-- `resample_to_grid(t, xyz, fs)` (lines 81-111 of
`prepare_phone_dataset.py`): clean the trace, build the uniform grid
`np.arange(t_min, t_max + dt/2, dt)` with `dt = 1/fs`, and linearly
interpolate each channel onto it.  `none` models the Python exception on an
empty cleaned trace (`t[0]` raises IndexError). -/
def resample_to_grid (tr : List Sample3) (fs : ℚ) : Option (List ℚ × List Vec3) :=
  match cleanTrace tr with
  | [] => none
  | a :: rest =>
      let c := a :: rest
      let dt := 1 / fs
      let tmin := a.t
      let tmax := (c.getLastD a).t
      let grid := npArange tmin (tmax + dt / 2) dt
      some (grid, grid.map (fun x => fun j => npInterp x (c.map (·.t)) (c.map (fun s => s.v j))))

/-- The head and last grid timestamps of a successfully resampled trace
(`t_grid[0]` and `t_grid[-1]` in `build_common_six_axis`). -/
def gridRange (tr : List Sample3) (fs : ℚ) : Option (ℚ × ℚ) :=
  (resample_to_grid tr fs).bind (fun p => p.1.head?.map (fun h => (h, p.1.getLastD h)))

/-- `build_common_six_axis` (lines 114-148 of `prepare_phone_dataset.py`),
taking the two already-loaded traces: resample each, intersect the two grid
ranges, fail (`ValueError`, modelled as `none`) when `t_end <= t_start`,
otherwise build the common grid and interpolate all six channels onto it.
`none` also models the IndexError on an empty per-sensor grid. -/
def build_common_six_axis (accTr gyrTr : List Sample3) (fs : ℚ) :
    Option (List ℚ × List Vec6) :=
  match resample_to_grid accTr fs, resample_to_grid gyrTr fs with
  | some (tA, accG), some (tG, gyrG) =>
      match tA.head?, tG.head? with
      | some a0, some g0 =>
          let tStart := max a0 g0
          let tEnd := min (tA.getLastD a0) (tG.getLastD g0)
          if tEnd ≤ tStart then none
          else
            let dt := 1 / fs
            let grid := npArange tStart (tEnd + dt / 2) dt
            some (grid, grid.map (fun x => fun j : Fin 6 =>
              if h : (j : ℕ) < 3 then
                npInterp x tA (accG.map (fun r => r ⟨j, h⟩))
              else
                npInterp x tG (gyrG.map (fun r => r ⟨(j : ℕ) - 3, by
                  have := j.isLt; omega⟩))))
      | _, _ => none
  | _, _ => none

/-- The smoothing step of `smooth_and_detect_peaks` (lines 172-178):
moving-average window `max(3, int(0.05*fs))`, applied with
`np.convolve(signal, kernel, mode="same")`. -/
def smoothSignal (signal : List ℚ) (fs : ℚ) : List ℚ :=
  let window := max 3 (pyInt (1 / 20 * fs)).toNat
  if 1 < window then
    npConvolveSame signal (List.replicate window (1 / (window : ℚ)))
  else signal

/-- One iteration of the minimum-spacing loop (lines 196-205): state is the
kept peak list and `last_idx`.  Keep the candidate if it is at least
`min_dist` past `last_idx`; otherwise replace the last kept peak when the
candidate's smoothed value is strictly larger. -/
def spacingStep (smooth : List ℚ) (minDist : ℤ) (st : List ℕ × ℤ) (idx : ℕ) :
    List ℕ × ℤ :=
  if minDist ≤ (idx : ℤ) - st.2 then (st.1 ++ [idx], (idx : ℤ))
  else if pyGet smooth st.2 < pyGet smooth (idx : ℤ) then
    (st.1.dropLast ++ [idx], (idx : ℤ))
  else st

/-- `smooth_and_detect_peaks(signal, fs, thresh_factor, min_distance_sec)`
(lines 151-207), with the value of `float(smooth.std())` passed explicitly as
`std` because square roots leave ℚ; theorems either hold for every `std` or
carry the hypothesis `std ≥ 0 ∧ std^2 = npVar (smoothSignal signal fs)`
pinning it to the code's value.  The `or 1.0` flat-signal guard is the
`if std = 0` branch. -/
def smooth_and_detect_peaksWith (signal : List ℚ) (fs tf mds std : ℚ) : List ℕ :=
  let n := signal.length
  if n < 3 then []
  else
    let smooth := smoothSignal signal fs
    let mean := npMean smooth
    let stdG := if std = 0 then 1 else std
    let thresh := mean + tf * stdG
    let candidates := (List.range' 1 (n - 2)).filter (fun i =>
      decide (thresh < smooth.getD i 0) &&
      decide (smooth.getD (i - 1) 0 ≤ smooth.getD i 0) &&
      decide (smooth.getD (i + 1) 0 ≤ smooth.getD i 0))
    if candidates = [] then []
    else
      let minDist := pyInt (mds * fs)
      (candidates.foldl (spacingStep smooth minDist) ([], -minDist)).1

/-- The body of the `for p in peaks` loop of `segment_around_peaks` (lines
231-237): clamp the window to `[max(0, p-pre), min(n, p+post))`, skip it when
degenerate, otherwise append the slice. -/
def segStep (data6 : List Vec6) (pre post : ℤ) (segments : List (List Vec6)) (p : ℕ) :
    List (List Vec6) :=
  let start : ℤ := max 0 ((p : ℤ) - pre)
  let e : ℤ := min ((data6.length : ℤ)) ((p : ℤ) + post)
  if e ≤ start then segments
  else segments ++ [(data6.drop start.toNat).take (e - start).toNat]

/-- `segment_around_peaks(data6, peaks, fs, pre_sec, post_sec)` (lines
210-238), translated loop for loop: `pre = int(pre_sec*fs)`,
`post = int(post_sec*fs)`, slices accumulated in peak order. -/
def segment_around_peaks (data6 : List Vec6) (peaks : List ℕ) (fs preSec postSec : ℚ) :
    List (List Vec6) :=
  peaks.foldl (segStep data6 (pyInt (preSec * fs)) (pyInt (postSec * fs))) []

/-- The per-peak window of the Window Segmenter as §4.4 of the spec words it,
with `round(pre_sec·fs)` and `round(post_sec·fs)`. -/
def specWindow (data6 : List Vec6) (fs preSec postSec : ℚ) (p : ℕ) :
    Option (List Vec6) :=
  let n := data6.length
  let start : ℤ := max 0 ((p : ℤ) - round (preSec * fs))
  let e : ℤ := min (n : ℤ) ((p : ℤ) + round (postSec * fs))
  if e ≤ start then none
  else some ((data6.drop start.toNat).take (e - start).toNat)

/-- The Window Segmenter as the spec claims it behaves: one slice per peak by
`specWindow`, degenerate windows skipped, peak order kept. -/
def segmentsSpec (data6 : List Vec6) (peaks : List ℕ) (fs preSec postSec : ℚ) :
    List (List Vec6) :=
  peaks.filterMap (specWindow data6 fs preSec postSec)

/-- The per-peak window with the spec's `round` corrected to Python's `int`
truncation, as the code computes it. -/
def truncWindow (data6 : List Vec6) (pre post : ℤ) (p : ℕ) :
    Option (List Vec6) :=
  let start : ℤ := max 0 ((p : ℤ) - pre)
  let e : ℤ := min ((data6.length : ℤ)) ((p : ℤ) + post)
  if e ≤ start then none
  else some ((data6.drop start.toNat).take (e - start).toNat)

/-- `to_fixed_length(seg, target_len)` (lines 241-263): identity at the
target length, otherwise per-channel linear interpolation between the
normalized axes `linspace(0,1,t)` and `linspace(0,1,target_len)`.  The
6-channel check is carried by the `Vec6` row type; `none` models the numpy
ValueError when interpolating from an empty segment. -/
def to_fixed_length (seg : List Vec6) (targetLen : ℕ) : Option (List Vec6) :=
  let t := seg.length
  if t = targetLen then some seg
  else if t = 0 then none
  else
    some ((npLinspace 0 1 targetLen).map (fun x => fun j =>
      npInterp x (npLinspace 0 1 t) (seg.map (fun r => r j))))

/-- `FIXED_LENGTH` of `train_cnn.py`. -/
def FIXED_LENGTH : ℕ := 128

/-- `pad_or_truncate(sample, length)` (lines 60-68 of `train_cnn.py`):
identity at the target length, head-crop when longer, zero-pad at the end
when shorter. -/
def pad_or_truncate (sample : List Vec6) (length : ℕ) : List Vec6 :=
  let t := sample.length
  if t = length then sample
  else if length < t then sample.take length
  else sample ++ List.replicate (length - t) zeroRow

/-- The noise + gain steps of `augment_sample` (lines 78-84 of
`train_cnn.py`), with the random draws passed in: `aug = (sample + noise) *
gains`. -/
def perturbSample (sample noise : List Vec6) (gains : Vec6) : List Vec6 :=
  (sample.zip noise).map (fun p => fun j => (p.1 j + p.2 j) * gains j)

/-- The time-scaling step of `augment_sample` (lines 86-96):
`new_t = int(t*scale)` floored to 2, then per-channel interpolation from
`linspace(0, t-1, t)` onto `linspace(0, t-1, new_t)`. -/
def timeWarp (aug : List Vec6) (scale : ℚ) : List Vec6 :=
  let t := aug.length
  let newT := (max (pyInt ((t : ℚ) * scale)) 2).toNat
  let origIdx := npLinspace 0 ((t : ℚ) - 1) t
  (npLinspace 0 ((t : ℚ) - 1) newT).map (fun x => fun j =>
    npInterp x origIdx (aug.map (fun r => r j)))

/-- `augment_sample(sample)` (lines 71-98 of `train_cnn.py`) with the three
random draws (noise matrix, gain vector, time scale) passed explicitly:
perturb, warp, then `pad_or_truncate(aug_scaled, FIXED_LENGTH)`. -/
def augment_sample (sample noise : List Vec6) (gains : Vec6) (scale : ℚ) : List Vec6 :=
  pad_or_truncate (timeWarp (perturbSample sample noise gains) scale) FIXED_LENGTH

/-- The glob `class_dir.glob(f"{class_name}_*.csv")` of
`next_index_for_class` (line 49 of `augment_from_new_phone_dataset.py`),
applied to a directory listing. -/
def globClassCsv (cls : String) (files : List String) : List String :=
  files.filter (fun f => f.startsWith (cls ++ "_") && f.endsWith ".csv")

/-- Lines 50-57 of `augment_from_new_phone_dataset.py`: take the stem, split
on underscores, require exactly two parts, and parse the second as an
integer (parse failures are skipped). -/
def parseIdx (f : String) : Option ℕ :=
  match (f.dropRight 4).splitOn "_" with
  | [_, p2] => p2.toNat?
  | _ => none

/-- The body of the `for csv_path in class_dir.glob(...)` loop of
`next_index_for_class` (lines 49-59): keep the running maximum parsed
index, skipping files that do not parse. -/
def maxStep (m : ℕ) (f : String) : ℕ :=
  match parseIdx f with
  | some i => if m < i then i else m
  | none => m

/-- `next_index_for_class(class_name)` (lines 43-61): one past the maximum
parsed index over the matching files (0 when none match). -/
def next_index_for_class (cls : String) (files : List String) : ℕ :=
  ((globClassCsv cls files).foldl maxStep 0) + 1

/-- Python `f"{idx:03d}"`: decimal, zero-padded to width at least 3. -/
def pad3 (n : ℕ) : String :=
  if n < 10 then "00" ++ toString n
  else if n < 100 then "0" ++ toString n
  else toString n

/-- The output filename `f"{label}_{idx:03d}.csv"` used by both writers. -/
def segmentFileName (cls : String) (idx : ℕ) : String :=
  cls ++ "_" ++ pad3 idx ++ ".csv"

/-- The index sequence written by `process_new_folder` (lines 87-98 of
`augment_from_new_phone_dataset.py`): `next_idx, next_idx+1, ...`. -/
def processNewFolderIndices (cls : String) (files : List String) (count : ℕ) : List ℕ :=
  (List.range count).map (fun i => next_index_for_class cls files + i)

/-- The filenames written by `process_new_folder`. -/
def processNewFolderNames (cls : String) (files : List String) (count : ℕ) : List String :=
  (processNewFolderIndices cls files count).map (segmentFileName cls)

/-- The filenames written by `process_class` (lines 305-314 of
`prepare_phone_dataset.py`): `enumerate(segments, start=1)`, so indices
1..count regardless of the directory's current contents. -/
def processClassNames (cls : String) (count : ℕ) : List String :=
  (List.range count).map (fun i => segmentFileName cls (i + 1))

/-! ### Helper lemmas -/

lemma npArange_length (start stop step : ℚ) :
    (npArange start stop step).length = (⌈(stop - start) / step⌉).toNat := by
  unfold npArange
  rw [List.length_map, List.length_range]

lemma npLinspace_length (a b : ℚ) (num : ℕ) : (npLinspace a b num).length = num := by
  unfold npLinspace
  rw [List.length_map, List.length_range]

lemma mem_npArange {start stop step g : ℚ} (hg : g ∈ npArange start stop step) :
    ∃ i : ℕ, (i : ℤ) < ⌈(stop - start) / step⌉ ∧ g = start + i * step := by
  unfold npArange at hg
  rw [List.mem_map] at hg
  obtain ⟨i, hi, rfl⟩ := hg
  rw [List.mem_range] at hi
  exact ⟨i, Int.lt_toNat.mp hi, rfl⟩

/-- A zero-valued sample at time `t`, used in concrete instances. -/
def zs (t : ℚ) : Sample3 := ⟨t, fun _ => 0⟩


/-! ### C2 — InsufficientData on traces with fewer than 2 distinct timestamps -/

/-- C2 counterexample: a trace whose cleaned timestamp sequence has exactly
one distinct timestamp (fewer than 2) is NOT rejected: `resample_to_grid`
returns a one-point `UniformSignal` instead of failing. -/
theorem resample_single_timestamp_counterexample :
    (cleanTrace [zs 0]).length = 1 ∧
    (resample_to_grid [zs 0] 100).map Prod.fst = some [0] ∧
    (resample_to_grid [zs 0] 100).isSome = true := by
  with_unfolding_all decide

/-- C2 amended: `resample_to_grid` performs no minimum-timestamp check at
all: for positive `fs` it fails (a Python IndexError, not an
`InsufficientData` error) exactly on an empty cleaned trace, and returns a
signal for every nonempty cleaned trace — including single-timestamp traces,
which yield a one-point grid. -/
theorem resample_no_insufficient_data_check (tr : List Sample3) (fs : ℚ)
    (_hfs : 0 < fs) :
    (resample_to_grid tr fs).isSome = true ↔ cleanTrace tr ≠ [] := by
  cases h : cleanTrace tr with
  | nil => simp [resample_to_grid, h]
  | cons a rest => simp [resample_to_grid, h]

/-- C2 witness: the amended theorem applied to the one-sample trace. -/
theorem resample_no_insufficient_data_check_witness :
    (resample_to_grid [zs 0] 100).isSome = true :=
  (resample_no_insufficient_data_check [zs 0] 100 (by norm_num)).mpr
    (by with_unfolding_all decide)

/-! ### C4 — grid length formula -/

/-- C4 counterexample: for the cleaned strictly increasing trace
`t = [0, 1/200]` and `fs = 100` (`dt = 1/100`), the produced grid has 1
point, but the claimed formula `floor((t_max-t_min)/dt + 0.5) + 1` gives 2. -/
theorem resample_grid_length_halfstep_counterexample :
    (resample_to_grid [zs 0, zs (1 / 200)] 100).map (fun p => p.1.length) = some 1 ∧
    (⌊((1 / 200 : ℚ) - 0) * 100 + 1 / 2⌋ + 1 : ℤ) = 2 := by
  with_unfolding_all decide

/-- C4 amended: the grid length is `⌈(t_max-t_min)·fs + 1/2⌉` (the number of
points of `np.arange(t_min, t_max + dt/2, dt)`), which agrees with the
claimed `⌊(t_max-t_min)·fs + 1/2⌋ + 1` except when `(t_max-t_min)·fs + 1/2`
is an exact integer. -/
theorem resample_grid_length_eq_ceil (tr : List Sample3) (fs : ℚ)
    (a : Sample3) (rest : List Sample3) (grid : List ℚ)
    (hfs : 0 < fs) (hc : cleanTrace tr = a :: rest)
    (hr : (resample_to_grid tr fs).map Prod.fst = some grid) :
    grid.length = (⌈(((a :: rest).getLastD a).t - a.t) * fs + 1 / 2⌉).toNat := by
  rw [resample_to_grid, hc] at hr
  simp only [Option.map_some', Option.some.injEq] at hr
  have harg : (((a :: rest).getLastD a).t + 1 / fs / 2 - a.t) / (1 / fs)
      = (((a :: rest).getLastD a).t - a.t) * fs + 1 / 2 := by
    field_simp
    ring
  rw [← hr, npArange_length, harg]

/-- C4 witness: the amended formula at the trace `t = [0, 1/100]`,
`fs = 100`: the grid is `[0, 1/100]`, of length `⌈1 + 1/2⌉ = 2`. -/
theorem resample_grid_length_eq_ceil_witness :
    ([0, 1 / 100] : List ℚ).length =
      (⌈((zs (1 / 100)).t - (zs 0).t) * 100 + 1 / 2⌉).toNat := by
  have h := resample_grid_length_eq_ceil [zs 0, zs (1 / 100)] 100 (zs 0)
    [zs (1 / 100)] [0, 1 / 100]
    (by norm_num) (by with_unfolding_all decide) (by with_unfolding_all decide)
  simpa using h

/-! ### C5 — grid points stay within the original time range -/

/-- C5 counterexample: for the cleaned trace `t = [0, 7/1000]` and
`fs = 100`, the grid is `[0, 1/100]`, whose last point `1/100` exceeds
`t_max = 7/1000`: interpolation IS queried beyond the original range
(`np.interp` clamps it to the last sample). -/
theorem resample_grid_exceeds_tmax_counterexample :
    (resample_to_grid [zs 0, zs (7 / 1000)] 100).map Prod.fst = some [0, 1 / 100] ∧
    ¬ ((1 / 100 : ℚ) ≤ 7 / 1000) := by
  with_unfolding_all decide

/-- C5 amended: every grid point `g` satisfies
`t_min ≤ g < t_max + 1/(2·fs)`: the grid never starts before `t_min` but its
last point may overshoot `t_max` by strictly less than half a step. -/
theorem resample_grid_within_halfstep_margin (tr : List Sample3) (fs : ℚ)
    (a : Sample3) (rest : List Sample3) (grid : List ℚ)
    (hfs : 0 < fs) (hc : cleanTrace tr = a :: rest)
    (hr : (resample_to_grid tr fs).map Prod.fst = some grid) :
    ∀ g ∈ grid, a.t ≤ g ∧ g < ((a :: rest).getLastD a).t + 1 / (2 * fs) := by
  rw [resample_to_grid, hc] at hr
  simp only [Option.map_some', Option.some.injEq] at hr
  intro g hg
  rw [← hr] at hg
  obtain ⟨i, hi, rfl⟩ := mem_npArange hg
  have hstep : (0 : ℚ) < 1 / fs := by positivity
  constructor
  · have : (0 : ℚ) ≤ (i : ℚ) * (1 / fs) := by positivity
    linarith
  · have hilt : (i : ℚ) < (((a :: rest).getLastD a).t + 1 / fs / 2 - a.t) / (1 / fs) :=
      Int.lt_ceil.mp hi
    have hmul := (mul_lt_mul_right hstep).mpr hilt
    rw [div_mul_cancel₀ _ (ne_of_gt hstep)] at hmul
    have hhalf : (1 : ℚ) / fs / 2 = 1 / (2 * fs) := by
      rw [div_div, mul_comm]
    linarith [hmul, hhalf]

/-- C5 witness: the amended bounds at the trace `t = [0, 7/1000]`,
`fs = 100`, for the overshooting grid point `1/100`. -/
theorem resample_grid_within_halfstep_margin_witness :
    (0 : ℚ) ≤ 1 / 100 ∧ (1 / 100 : ℚ) < 7 / 1000 + 1 / (2 * 100) := by
  have h := resample_grid_within_halfstep_margin [zs 0, zs (7 / 1000)] 100 (zs 0)
    [zs (7 / 1000)] [0, 1 / 100]
    (by norm_num) (by with_unfolding_all decide) (by with_unfolding_all decide)
    (1 / 100) (by simp)
  simpa [zs] using h

/-! ### C8 — NoOverlap exactly on empty or inverted common windows -/

/-- C8: the Dual-Sensor Merger succeeds exactly when the common window
`[max(start_a, start_g), min(end_a, end_g)]` of the two resampled traces is
non-degenerate; it fails (the `ValueError` modelling `NoOverlap`) exactly
when that window is empty or inverted. -/
theorem build_common_six_axis_no_overlap_iff (accTr gyrTr : List Sample3) (fs : ℚ)
    (sA eA sG eG : ℚ)
    (hA : gridRange accTr fs = some (sA, eA))
    (hG : gridRange gyrTr fs = some (sG, eG)) :
    (build_common_six_axis accTr gyrTr fs).isSome = true ↔ max sA sG < min eA eG := by
  unfold gridRange at hA hG
  rw [Option.bind_eq_some] at hA hG
  obtain ⟨⟨tA, accG⟩, hrA, hA⟩ := hA
  obtain ⟨⟨tG, gyrG⟩, hrG, hG⟩ := hG
  rw [Option.map_eq_some'] at hA hG
  obtain ⟨a0, ha0, hpa⟩ := hA
  obtain ⟨g0, hg0, hpg⟩ := hG
  rw [Prod.mk.injEq] at hpa hpg
  obtain ⟨rfl, heA⟩ := hpa
  obtain ⟨rfl, heG⟩ := hpg
  simp only [build_common_six_axis, hrA, hrG, ha0, hg0]
  rw [heA, heG]
  split_ifs with h
  · simp only [Option.isSome_none, Bool.false_eq_true, false_iff, not_lt]
    exact h
  · simp only [Option.isSome_some, true_iff]
    exact lt_of_not_le h

/-- C8 witness: the theorem at the spec's example — an accelerometer
spanning `[0,1]` s and a gyroscope spanning `[2,3]` s (resampled at 100 Hz)
make the merger fail. -/
theorem build_common_six_axis_no_overlap_iff_witness :
    (build_common_six_axis [zs 0, zs 1] [zs 2, zs 3] 100).isSome = false := by
  have h := build_common_six_axis_no_overlap_iff [zs 0, zs 1] [zs 2, zs 3] 100
    0 1 2 3 (by with_unfolding_all decide) (by with_unfolding_all decide)
  rw [Bool.eq_false_iff]
  intro hs
  have hlt := h.mp hs
  rw [max_lt_iff] at hlt
  have h21 : (2 : ℚ) < 1 := lt_of_lt_of_le hlt.2 (min_le_left _ _)
  norm_num at h21

/-! ### C7 — Fixed-Length Normalizer round trip and idempotence -/

/-- A segment already at the target length is returned unchanged
(the `if t == target_len: return seg` branch). -/
lemma to_fixed_length_of_length_eq (seg : List Vec6) (L : ℕ) (h : seg.length = L) :
    to_fixed_length seg L = some seg := by
  simp [to_fixed_length, h]

/-- C7: the Fixed-Length Normalizer returns a segment of shape (L, 6)
unchanged when asked for length L, and composing it with itself at the same
target length is idempotent (in the exception-propagating sense: a failing
inner call stays a failure). -/
theorem to_fixed_length_roundtrip :
    (∀ (seg : List Vec6) (L : ℕ), seg.length = L → to_fixed_length seg L = some seg) ∧
    (∀ (seg : List Vec6) (L : ℕ),
      (to_fixed_length seg L).bind (fun s => to_fixed_length s L) =
        to_fixed_length seg L) := by
  refine ⟨fun seg L h => to_fixed_length_of_length_eq seg L h, fun seg L => ?_⟩
  by_cases h1 : seg.length = L
  · rw [to_fixed_length_of_length_eq seg L h1, Option.some_bind,
      to_fixed_length_of_length_eq seg L h1]
  · by_cases h2 : seg.length = 0
    · have hnone : to_fixed_length seg L = none := by
        have h0 : ¬ (0 = L) := by omega
        simp [to_fixed_length, h2, h0]
      rw [hnone]
      rfl
    · have hsome : to_fixed_length seg L =
          some ((npLinspace 0 1 L).map (fun x => fun j =>
            npInterp x (npLinspace 0 1 seg.length) (seg.map (fun r => r j)))) := by
        simp [to_fixed_length, h1, h2]
      rw [hsome, Option.some_bind,
        to_fixed_length_of_length_eq _ _ (by rw [List.length_map, npLinspace_length])]

/-- C7 witness: the round-trip half applied to a concrete one-row segment. -/
theorem to_fixed_length_roundtrip_witness :
    to_fixed_length [fun _ => 5] 1 = some [fun _ => 5] :=
  to_fixed_length_roundtrip.1 [fun _ => 5] 1 rfl


/-! ### C9 — Window Segmenter windows -/

/-- Accumulating an optional element per input is a `filterMap`. -/
lemma foldl_opt_append {α β : Type} (f : α → Option β) (l : List α) :
    ∀ init : List β,
      l.foldl (fun acc x => acc ++ (f x).toList) init = init ++ l.filterMap f := by
  induction l with
  | nil => intro init; simp
  | cons x l ih =>
      intro init
      rw [List.foldl_cons, List.filterMap_cons]
      cases hfx : f x with
      | none => simp only [hfx, Option.toList_none, List.append_nil]; rw [ih init]
      | some b =>
          simp only [hfx, Option.toList_some]
          rw [ih (init ++ [b])]
          simp

/-- Each loop iteration of the segmenter appends the optional clamped
window. -/
lemma segStep_eq_truncWindow (data6 : List Vec6) (pre post : ℤ) :
    segStep data6 pre post =
      (fun segments p => segments ++ (truncWindow data6 pre post p).toList) := by
  funext segments p
  simp only [segStep, truncWindow]
  split_ifs with h
  · rw [Option.toList_none, List.append_nil]
  · rw [Option.toList_some]

/-- The 10-row six-channel signal whose row `i` is constantly `i`, used as a
concrete segmenter input. -/
def segData : List Vec6 := (List.range 10).map (fun i => fun _ => (i : ℚ))

/-- C9 counterexample: with `fs = 10`, `pre_sec = 0.59`, `post_sec = 0.5`
and the peak `[6]`, the code slices `pre = int(5.9) = 5` rows before the
peak (window length 9), while the claimed formula with `round(5.9) = 6`
would produce a window of length 10 — the produced segments differ from the
claimed ones. -/
theorem segmenter_round_mismatch_counterexample :
    (segment_around_peaks segData [6] 10 (59 / 100) (1 / 2)).map List.length = [9] ∧
    (segmentsSpec segData [6] 10 (59 / 100) (1 / 2)).map List.length = [10] ∧
    (segment_around_peaks segData [6] 10 (59 / 100) (1 / 2)).map List.length ≠
      (segmentsSpec segData [6] 10 (59 / 100) (1 / 2)).map List.length := by
  with_unfolding_all decide

/-- C9 amended: with `round` corrected to Python `int` truncation, the
Window Segmenter is exactly the per-peak clamped-window map: one slice
`[max(0, p - int(pre_sec·fs)), min(T, p + int(post_sec·fs)))` per peak, in
peak order, with degenerate windows (`end <= start`) silently skipped — in
particular a peak at index 0 with `pre_sec > 0` starts its window at 0. -/
theorem segment_around_peaks_eq_trunc_windows (data6 : List Vec6) (peaks : List ℕ)
    (fs preSec postSec : ℚ) :
    segment_around_peaks data6 peaks fs preSec postSec =
      peaks.filterMap (truncWindow data6 (pyInt (preSec * fs)) (pyInt (postSec * fs))) := by
  unfold segment_around_peaks
  rw [segStep_eq_truncWindow, foldl_opt_append, List.nil_append]

/-! ### C1 — the Synthetic Augmentor's final step pads or crops -/

/-- The constant-one 128-row sample. -/
def onesSample : List Vec6 := List.replicate 128 (fun _ => 1)

/-- The all-zero 128-row noise draw. -/
def zeroNoise : List Vec6 := List.replicate 128 zeroRow

/-- Scanning constant node values always interpolates to that constant. -/
lemma npInterpGo_const (x c : ℚ) :
    ∀ (xs : List ℚ) (x0 : ℚ), npInterpGo x x0 c xs (List.replicate xs.length c) = c := by
  intro xs
  induction xs with
  | nil => intro x0; rfl
  | cons x1 xs ih =>
      intro x0
      rw [List.length_cons, List.replicate_succ, npInterpGo]
      split_ifs with h
      · rw [sub_self, zero_mul, zero_div, add_zero]
      · exact ih x1

/-- `np.interp` of a constant channel is that constant. -/
lemma npInterp_const (x c : ℚ) (xp : List ℚ) (hxp : xp ≠ []) :
    npInterp x xp (List.replicate xp.length c) = c := by
  cases xp with
  | nil => exact absurd rfl hxp
  | cons x0 xs =>
      rw [List.length_cons, List.replicate_succ, npInterp]
      split_ifs with h
      · rfl
      · exact npInterpGo_const x c xs x0

/-- `np.interp` of a constant channel, with the node count given
separately. -/
lemma npInterp_const' (x c : ℚ) (xp : List ℚ) (n : ℕ) (hn : n = xp.length)
    (hxp : xp ≠ []) : npInterp x xp (List.replicate n c) = c := by
  subst hn
  exact npInterp_const x c xp hxp

/-- The noise/gain step on the all-ones sample with zero noise and unit
gains yields all-ones rows. -/
lemma perturb_ones :
    perturbSample onesSample zeroNoise (fun _ => 1) =
      List.replicate 128 (fun _ => (1 : ℚ)) := by
  unfold perturbSample onesSample zeroNoise zeroRow
  rw [List.zip_replicate', List.map_replicate]
  refine congrArg (List.replicate 128) ?_
  funext j
  norm_num

/-- Time-warping a constant 128-row sample gives `max(int(128·scale), 2)`
constant rows. -/
lemma timeWarp_const_128 (c scale : ℚ) :
    timeWarp (List.replicate 128 (fun _ => c)) scale =
      List.replicate ((max (pyInt ((128 : ℚ) * scale)) 2).toNat) (fun _ => c) := by
  simp only [timeWarp, List.length_replicate, Nat.cast_ofNat, List.map_replicate]
  have hfun : (fun x => fun j : Fin 6 =>
      npInterp x (npLinspace 0 ((128 : ℚ) - 1) 128) (List.replicate 128 c))
      = (fun _ : ℚ => (fun _ : Fin 6 => c)) := by
    funext x j
    refine npInterp_const' x c _ 128 (npLinspace_length _ _ _).symm ?_
    intro hnil
    have hl := congrArg List.length hnil
    rw [npLinspace_length] at hl
    simp at hl
  rw [hfun, List.map_const', npLinspace_length]

/-- `pad_or_truncate` is head-crop plus zero-padding in all three branches. -/
lemma pad_or_truncate_eq_take_append (sample : List Vec6) (L : ℕ) :
    pad_or_truncate sample L =
      sample.take L ++ List.replicate (L - sample.length) zeroRow := by
  simp only [pad_or_truncate]
  split_ifs with h1 h2
  · rw [← h1, List.take_length, Nat.sub_self]
    simp
  · rw [Nat.sub_eq_zero_of_le (le_of_lt h2)]
    simp
  · rw [List.take_of_length_le (by omega)]

/-- `int(128 * 0.92) = 117`, floored to at least 2. -/
lemma warp_len_92 : (max (pyInt ((128 : ℚ) * (23 / 25))) 2).toNat = 117 := by
  have h : pyInt ((128 : ℚ) * (23 / 25)) = 117 := by
    rw [pyInt, if_pos (by norm_num)]
    rw [Int.floor_eq_iff]
    norm_num
  rw [h]
  rfl

/-- `int(128 * 1.08) = 138`, floored to at least 2. -/
lemma warp_len_108 : (max (pyInt ((128 : ℚ) * (27 / 25))) 2).toNat = 138 := by
  have h : pyInt ((128 : ℚ) * (27 / 25)) = 138 := by
    rw [pyInt, if_pos (by norm_num)]
    rw [Int.floor_eq_iff]
    norm_num
  rw [h]
  rfl

/-- C1 counterexample: on an all-ones (128, 6) input with zero noise, unit
gains and scale 0.92, the warp produces 117 all-ones rows and the final step
appends 11 all-zero rows (zero-padding); with scale 1.08 the warp produces
138 all-ones rows and the final step crops them to 128 — so the final step
both zero-pads and crops, and is not a second resample. -/
theorem augment_sample_pads_and_crops_counterexample :
    (augment_sample onesSample zeroNoise (fun _ => 1) (23 / 25)).map (fun r => r 0)
        = List.replicate 117 1 ++ List.replicate 11 0 ∧
    (timeWarp (perturbSample onesSample zeroNoise (fun _ => 1)) (23 / 25)).map
        (fun r => r 0) = List.replicate 117 1 ∧
    (timeWarp (perturbSample onesSample zeroNoise (fun _ => 1)) (27 / 25)).length = 138 ∧
    (augment_sample onesSample zeroNoise (fun _ => 1) (27 / 25)).length = 128 := by
  have hw92 : timeWarp (perturbSample onesSample zeroNoise (fun _ => 1)) (23 / 25)
      = List.replicate 117 (fun _ => (1 : ℚ)) := by
    rw [perturb_ones, timeWarp_const_128, warp_len_92]
  have hw108 : timeWarp (perturbSample onesSample zeroNoise (fun _ => 1)) (27 / 25)
      = List.replicate 138 (fun _ => (1 : ℚ)) := by
    rw [perturb_ones, timeWarp_const_128, warp_len_108]
  refine ⟨?_, ?_, ?_, ?_⟩
  · unfold augment_sample
    rw [hw92, pad_or_truncate_eq_take_append, List.length_replicate]
    rw [List.take_of_length_le (by rw [List.length_replicate]; norm_num [FIXED_LENGTH])]
    rw [List.map_append, List.map_replicate, List.map_replicate]
    norm_num [FIXED_LENGTH, zeroRow]
  · rw [hw92, List.map_replicate]
  · rw [hw108, List.length_replicate]
  · unfold augment_sample
    rw [hw108, pad_or_truncate_eq_take_append, List.length_replicate]
    rw [List.length_append, List.length_take, List.length_replicate, List.length_replicate]
    norm_num [FIXED_LENGTH]

/-- C1 amended: `augment_sample` brings the warped signal (of length
`int(T·scale)` floored to 2, not `round(T·scale)`) back to `L = 128` with
`pad_or_truncate`: it crops to the first 128 rows when the warp is longer
and appends all-zero rows when it is shorter — not a second full resample. -/
theorem augment_sample_pads_or_crops (sample noise : List Vec6) (gains : Vec6)
    (scale : ℚ) :
    augment_sample sample noise gains scale =
      (timeWarp (perturbSample sample noise gains) scale).take FIXED_LENGTH ++
        List.replicate
          (FIXED_LENGTH - (timeWarp (perturbSample sample noise gains) scale).length)
          zeroRow := by
  unfold augment_sample
  exact pad_or_truncate_eq_take_append _ _

/-! ### C3 — single-spike peak location -/

/-- The length-25 signal that is zero except for a spike of height 25 at
index `k`. -/
def spikeSignal (k : ℕ) : List ℚ :=
  (List.range 25).map (fun i => if i = k then 25 else 0)

/-- C3 counterexample: for the spike at interior index 12, with
`thresh_factor = 1`, default `min_distance_sec = 0.3` and `fs = 100`, the
detector's true standard deviation is 2 (`2² = variance` of the smoothed
signal), and the detector returns exactly one peak — but at index 10 (the
left edge of the smoothing plateau), not at the spike index 12. -/
theorem peak_detector_spike_shift_counterexample :
    smooth_and_detect_peaksWith (spikeSignal 12) 100 1 (3 / 10) 2 = [10] ∧
    (0 ≤ (2 : ℚ) ∧ (2 : ℚ) ^ 2 = npVar (smoothSignal (spikeSignal 12) 100)) ∧
    (spikeSignal 12).getD 12 0 = 25 ∧ (spikeSignal 12).getD 10 0 = 0 ∧
    smooth_and_detect_peaksWith (spikeSignal 12) 100 1 (3 / 10) 2 ≠ [12] := by
  with_unfolding_all decide

/-- C3 amended: for every spike position `k` with the full 5-sample
smoothing window inside the interior (3 ≤ k ≤ 21 in the length-25 family),
the detector returns exactly one peak, at `k - 2` — the spike index shifted
left by half the smoothing window — and 2 is the true standard deviation of
the smoothed signal in each case. -/
theorem peak_detector_spike_amended :
    ∀ k ∈ List.range' 3 19,
      smooth_and_detect_peaksWith (spikeSignal k) 100 1 (3 / 10) 2 = [k - 2] ∧
      (2 : ℚ) ^ 2 = npVar (smoothSignal (spikeSignal k) 100) := by
  with_unfolding_all decide

/-- C3 witness: the amended statement at the interior spike `k = 12`. -/
theorem peak_detector_spike_amended_witness :
    smooth_and_detect_peaksWith (spikeSignal 12) 100 1 (3 / 10) 2 = [12 - 2] :=
  (peak_detector_spike_amended 12 (by decide)).1

/-! ### C10 — peak list invariants -/

/-- The minimum-spacing fold preserves strict increase and any per-element
property of the candidates, for every state of the `last_idx` register:
appending keeps order because every remaining candidate exceeds every kept
peak, and the greedy replacement swaps the last kept peak for a strictly
larger candidate. -/
lemma spacingFoldl_invariant (smooth : List ℚ) (minDist : ℤ) (Q : ℕ → Prop) :
    ∀ (cs peaks : List ℕ) (last : ℤ),
      cs.Pairwise (· < ·) →
      (∀ c ∈ cs, Q c) →
      (∀ c ∈ cs, ∀ p ∈ peaks, p < c) →
      List.Chain' (· < ·) peaks →
      (∀ p ∈ peaks, Q p) →
      List.Chain' (· < ·) (cs.foldl (spacingStep smooth minDist) (peaks, last)).1 ∧
        ∀ p ∈ (cs.foldl (spacingStep smooth minDist) (peaks, last)).1, Q p := by
  intro cs
  induction cs with
  | nil => intro peaks last _ _ _ hchain hQ; exact ⟨hchain, hQ⟩
  | cons c cs ih =>
      intro peaks last hpw hQc hgt hchain hQ
      rw [List.foldl_cons]
      rw [List.pairwise_cons] at hpw
      have hcQ : Q c := hQc c (List.mem_cons_self c cs)
      have hgtc : ∀ p ∈ peaks, p < c := fun p hp => hgt c (List.mem_cons_self c cs) p hp
      have hQc' : ∀ c' ∈ cs, Q c' := fun c' hc' => hQc c' (List.mem_cons_of_mem c hc')
      unfold spacingStep
      split_ifs with h1 h2
      · apply ih (peaks ++ [c]) c hpw.2 hQc'
        · intro c' hc' p hp
          rcases List.mem_append.mp hp with hp | hp
          · exact hgt c' (List.mem_cons_of_mem c hc') p hp
          · rw [List.mem_singleton] at hp
            subst hp
            exact hpw.1 c' hc'
        · rw [List.chain'_append]
          refine ⟨hchain, List.chain'_singleton c, ?_⟩
          intro x hx y hy
          rw [List.head?_cons, Option.mem_def, Option.some.injEq] at hy
          subst hy
          exact hgtc x (List.mem_of_getLast?_eq_some (Option.mem_def.mp hx))
        · intro p hp
          rcases List.mem_append.mp hp with hp | hp
          · exact hQ p hp
          · rw [List.mem_singleton] at hp
            subst hp
            exact hcQ
      · apply ih (peaks.dropLast ++ [c]) c hpw.2 hQc'
        · intro c' hc' p hp
          rcases List.mem_append.mp hp with hp | hp
          · exact hgt c' (List.mem_cons_of_mem c hc') p (List.dropLast_subset peaks hp)
          · rw [List.mem_singleton] at hp
            subst hp
            exact hpw.1 c' hc'
        · rw [List.chain'_append]
          refine ⟨hchain.sublist (List.dropLast_sublist peaks),
            List.chain'_singleton c, ?_⟩
          intro x hx y hy
          rw [List.head?_cons, Option.mem_def, Option.some.injEq] at hy
          subst hy
          exact hgtc x
            (List.dropLast_subset peaks (List.mem_of_getLast?_eq_some (Option.mem_def.mp hx)))
        · intro p hp
          rcases List.mem_append.mp hp with hp | hp
          · exact hQ p (List.dropLast_subset peaks hp)
          · rw [List.mem_singleton] at hp
            subst hp
            exact hcQ
      · exact ih peaks last hpw.2 hQc'
          (fun c' hc' p hp => hgt c' (List.mem_cons_of_mem c hc') p hp) hchain hQ

/-- The candidate filter plus spacing fold of the detector, for any
predicate: the result is strictly increasing and interior. -/
lemma detect_core_invariant (smooth : List ℚ) (minDist init : ℤ) (pred : ℕ → Bool)
    (n : ℕ) :
    List.Chain' (· < ·)
      ((((List.range' 1 (n - 2)).filter pred).foldl
        (spacingStep smooth minDist) ([], init)).1) ∧
      ∀ i ∈ (((List.range' 1 (n - 2)).filter pred).foldl
        (spacingStep smooth minDist) ([], init)).1, 1 ≤ i ∧ i + 2 ≤ n := by
  refine spacingFoldl_invariant smooth minDist (fun i => 1 ≤ i ∧ i + 2 ≤ n)
    _ [] init ?_ ?_ ?_ List.chain'_nil ?_
  · exact (List.pairwise_lt_range' 1 (n - 2)).filter _
  · intro c hc
    rw [List.mem_filter] at hc
    have hr := hc.1
    rw [List.mem_range'_1] at hr
    omega
  · intro c _ p hp
    exact absurd hp (List.not_mem_nil p)
  · intro p hp
    exact absurd hp (List.not_mem_nil p)

/-- C10: for every input signal and all parameter values (including every
value of the explicit `std` parameter, hence in particular the code's true
standard deviation), the returned peak list is strictly increasing and
contains only interior indices: `1 ≤ i` and `i + 2 ≤ n`, i.e. `i ≤ n - 2`. -/
theorem smooth_detect_peaks_invariant (signal : List ℚ) (fs tf mds std : ℚ) :
    List.Chain' (· < ·) (smooth_and_detect_peaksWith signal fs tf mds std) ∧
      ∀ i ∈ smooth_and_detect_peaksWith signal fs tf mds std,
        1 ≤ i ∧ i + 2 ≤ signal.length := by
  simp only [smooth_and_detect_peaksWith]
  split_ifs <;> first
    | exact ⟨List.chain'_nil, fun i hi => absurd hi (List.not_mem_nil i)⟩
    | exact detect_core_invariant (smoothSignal signal fs) (pyInt (mds * fs))
        (-pyInt (mds * fs)) _ signal.length

/-! ### C6 — output file naming and append semantics -/

/-- The running maximum never decreases below its initial value. -/
lemma le_foldl_maxStep (l : List String) : ∀ init : ℕ, init ≤ l.foldl maxStep init := by
  induction l with
  | nil => intro init; exact le_refl _
  | cons f fs ih =>
      intro init
      rw [List.foldl_cons]
      refine le_trans ?_ (ih (maxStep init f))
      unfold maxStep
      split
      all_goals try exact le_refl _
      split_ifs with h
      · exact le_of_lt h
      · exact le_refl _

/-- Every parsed index of a scanned file is bounded by the fold's result. -/
lemma parse_le_foldl_maxStep (l : List String) :
    ∀ init : ℕ, ∀ f ∈ l, ∀ j, parseIdx f = some j → j ≤ l.foldl maxStep init := by
  induction l with
  | nil => intro init f hf; exact absurd hf (List.not_mem_nil f)
  | cons g gs ih =>
      intro init f hf j hj
      rw [List.foldl_cons]
      rcases List.mem_cons.mp hf with rfl | hf
      · have hstep : maxStep init f = if init < j then j else init := by
          simp only [maxStep, hj]
        refine le_trans ?_ (le_foldl_maxStep gs (maxStep init f))
        rw [hstep]
        split_ifs with h
        · exact le_refl _
        · omega
      · exact ih (maxStep init g) f hf j hj

/-- C6 counterexample: with `Forehand_001.csv` already present in the class
directory, the claim says the next written file is numbered one past the
maximum existing index (002) — but `process_class` numbers its output from
001 regardless, so its first written filename collides with the existing
file (an overwrite, not an append). -/
theorem process_class_overwrites_counterexample :
    processClassNames "Forehand" 1 = ["Forehand_001.csv"] ∧
    "Forehand_001.csv" ∈ ["Forehand_001.csv"] ∧
    next_index_for_class "Forehand" ["Forehand_001.csv"] = 2 := by
  with_unfolding_all decide

/-- C6 amended: only `augment_from_new_phone_dataset.process_new_folder`
has append semantics: it numbers new `<ClassLabel>_<NNN>.csv` files
consecutively from `next_index_for_class`, which strictly exceeds every
index parsed from the directory's existing matching files, so no existing
indexed name is reused; `prepare_phone_dataset.process_class` instead
numbers from 001 on every run and can overwrite existing files. -/
theorem next_index_append_semantics (cls : String) (files : List String) (count : ℕ) :
    (∀ f ∈ globClassCsv cls files, ∀ j, parseIdx f = some j →
        j < next_index_for_class cls files) ∧
    List.Chain' (· < ·) (processNewFolderIndices cls files count) ∧
    (∀ j ∈ processNewFolderIndices cls files count,
        next_index_for_class cls files ≤ j) := by
  refine ⟨?_, ?_, ?_⟩
  · intro f hf j hj
    have h := parse_le_foldl_maxStep (globClassCsv cls files) 0 f hf j hj
    unfold next_index_for_class
    omega
  · unfold processNewFolderIndices
    refine List.Pairwise.chain' ?_
    refine List.Pairwise.map _ ?_ (List.pairwise_lt_range count)
    intro a b hab
    omega
  · intro j hj
    unfold processNewFolderIndices at hj
    rw [List.mem_map] at hj
    obtain ⟨i, _, rfl⟩ := hj
    omega

/-- C6 witness: the amended theorem's no-reuse bound at a directory already
holding `Forehand_007.csv`. -/
theorem next_index_append_semantics_witness :
    7 < next_index_for_class "Forehand" ["Forehand_007.csv"] :=
  (next_index_append_semantics "Forehand" ["Forehand_007.csv"] 0).1
    "Forehand_007.csv" (by with_unfolding_all decide) 7 (by with_unfolding_all decide)

end NeuraSentinel
